import Mathlib

/-!
Formal model of the message transport and delivery core of the
decentralized P2P chat client (source: src/lib/crypto.ts,
src/lib/p2p-network.ts, the SecurityManager, the shared type declarations
and the auth screen).

Modelling conventions, used throughout:

* JavaScript strings and Uint8Array values are both modelled as `List Nat`
  (`Str`); the UTF-8 codec of tweetnacl-util (`encodeUTF8` / `decodeUTF8`)
  is the identity on this representation.
* The tweetnacl / libsodium primitives are external library code, so they
  are modelled symbolically but executably: the base64 codec is an
  injective digit-pair encoding with a partial inverse, the hash is an
  injective function (a collision-free idealization; one-wayness is not
  needed by any claim), Curve25519 key agreement is Diffie-Hellman over the
  multiplicative group modulo the prime 251, and the stream cipher adds a
  keystream byte modulo 256 and carries a 16-byte authentication tag.
  Nonce length (24) and tag length (16) match tweetnacl.
* Randomness (nonces, generated secret keys, salts) is passed explicitly
  as a parameter to the modelled functions.
* JavaScript exceptions are modelled with `Except JsError` / `Option`; the
  `JsError` constructors correspond to the thrown message texts noted at
  each definition.  JSON serialization of structured values is modelled by
  an injective encoder with a partial decoder (`stringifyBackup` /
  `parseBackup`); JSON of an opaque payload is the identity on its byte
  representation.
* All functions of the repository itself are translated statement by
  statement from the TypeScript source, with the source location noted.
-/

set_option maxRecDepth 16384

namespace P2PChat

/-- A JS string or byte buffer: a list of code points / byte values. -/
abbrev Str := List Nat

/-- All entries are valid byte values (below 256).  Real JS Uint8Array
contents always satisfy this. -/
def byteOk (l : Str) : Bool := l.all (fun b => decide (b < 256))

/-- Model of tweetnacl-util `encodeBase64` (resp. libsodium `to_hex`): an
injective textual encoding of a byte sequence, rendered here as base-16
digit pairs.  The radix is irrelevant to every claim. -/
def encodeBase64 : Str → Str
  | [] => []
  | b :: rest => b / 16 :: b % 16 :: encodeBase64 rest

/-- Model of tweetnacl-util `decodeBase64` (resp. libsodium `from_hex`):
partial inverse of `encodeBase64`; returns `none` (the library throws) on
malformed input. -/
def decodeBase64 : Str → Option Str
  | [] => some []
  | h :: l :: rest =>
      if h < 16 ∧ l < 16 then
        (decodeBase64 rest).map (fun r => (h * 16 + l) :: r)
      else
        none
  | [_] => none

/-- Model of `nacl.hash` / `crypto_generichash`: an injective function on
byte sequences (collision-free idealization of the cryptographic hash; no
claim depends on one-wayness or output width). -/
def naclHash (l : Str) : Str := 1 :: l

/-- Little-endian decimal digits with explicit fuel, so that the function
reduces by iota in the kernel. -/
def digitsFuel : Nat → Nat → List Nat
  | 0, _ => []
  | fuel + 1, n => if n = 0 then [] else n % 10 :: digitsFuel fuel (n / 10)

/-- JS template interpolation of a number: the decimal digit string of `n`
(ASCII digits, most significant first). -/
def numStr (n : Nat) : Str :=
  if n = 0 then [48] else (digitsFuel n n).reverse.map (fun d => d + 48)

/-- Parse the decimal rendering back to the number (used only to prove that
the rendering is injective). -/
def numVal (s : Str) : Nat :=
  Nat.ofDigits 10 ((s.map (fun d => d - 48)).reverse)

/-- Little-endian interpretation of a byte sequence as a natural number
(the scalar encoded by a 32-byte Curve25519 key). -/
def bytesToNat : Str → Nat
  | [] => 0
  | b :: rest => b + 256 * bytesToNat rest

/-- Encode a small scalar back into a 32-byte key buffer. -/
def natToBytes32 (x : Nat) : Str := x % 256 :: List.replicate 31 0

/-- Field prime of the Diffie-Hellman model of Curve25519. -/
def dhP : Nat := 251

/-- Group generator of the Diffie-Hellman model. -/
def dhG : Nat := 6

/-- Model of Curve25519 scalar multiplication of the base point: the public
key derived from a secret key. -/
def pubOfPriv (sk : Str) : Str := natToBytes32 (dhG ^ bytesToNat sk % dhP)

/-- Model of the Curve25519 key agreement underlying `nacl.box`: the shared
scalar computed from a public key and a secret key. -/
def sharedOf (pk sk : Str) : Nat := bytesToNat pk ^ bytesToNat sk % dhP

/-- Keystream byte derived from a shared scalar and a nonce. -/
def streamByte (shared : Nat) (nonce : Str) : Nat := (shared + nonce.sum) % 256

/-- Encrypt one byte with keystream byte `s`. -/
def encByte (s b : Nat) : Nat := (b + s) % 256

/-- Decrypt one byte with keystream byte `s`. -/
def decByte (s c : Nat) : Nat := (c + (256 - s)) % 256

/-- The 16-byte authentication tag of the modelled AEAD. -/
def macTag (s : Nat) (payload : Str) : Str :=
  List.replicate 16 ((s + payload.sum) % 256)

/-- Core of the modelled authenticated stream cipher: tag followed by the
encrypted payload. -/
def sealWith (s : Nat) (m : Str) : Str :=
  let payload := m.map (encByte s)
  macTag s payload ++ payload

/-- Core of the modelled authenticated decryption: split the 16-byte tag,
verify it, decrypt the payload; `none` on tag mismatch or truncation. -/
def openWith (s : Nat) (c : Str) : Option Str :=
  if c.length < 16 then none
  else if c.take 16 = macTag s (c.drop 16) then some ((c.drop 16).map (decByte s))
  else none

/-- Model of `nacl.box(m, nonce, recipientPublicKey, senderSecretKey)`. -/
def naclBox (m nonce pk sk : Str) : Str :=
  sealWith (streamByte (sharedOf pk sk) nonce) m

/-- Model of `nacl.box.open(c, nonce, senderPublicKey, recipientSecretKey)`:
returns `none` exactly when authentication fails. -/
def naclBoxOpen (c nonce pk sk : Str) : Option Str :=
  openWith (streamByte (sharedOf pk sk) nonce) c

/-- Model of `nacl.secretbox(m, nonce, key)`. -/
def naclSecretbox (m nonce key : Str) : Str :=
  sealWith (streamByte key.sum nonce) m

/-- Model of `nacl.secretbox.open(c, nonce, key)`. -/
def naclSecretboxOpen (c nonce key : Str) : Option Str :=
  openWith (streamByte key.sum nonce) c

/-- Typed model of the JavaScript exceptions thrown on the modelled paths;
each constructor corresponds to one thrown message text. -/
inductive JsError where
  /-- thrown message: Decryption failed -/
  | decryptionFailed : JsError
  /-- a library codec threw on malformed input -/
  | invalidEncoding : JsError
  /-- thrown message: Backup integrity check failed -/
  | backupIntegrityCheckFailed : JsError
  /-- thrown message: Unsupported backup version -/
  | unsupportedBackupVersion : JsError
  /-- JSON.parse threw on malformed input -/
  | jsonParseFailed : JsError
deriving DecidableEq

/-- Key pair of encoded key strings, as in `lib/types.ts`. -/
structure KeyPair where
  publicKey : Str
  privateKey : Str
deriving DecidableEq

/-- `CryptoManager.generateKeyPair` (src/lib/crypto.ts 24-30): the fresh
random secret key produced by `nacl.box.keyPair()` is the explicit argument
`sk`; the public key is derived by base-point scalar multiplication, and
both halves are base64-encoded. -/
def generateKeyPair (sk : Str) : KeyPair :=
  { publicKey := encodeBase64 (pubOfPriv sk), privateKey := encodeBase64 sk }

/-- `CryptoManager.generateUserId` (src/lib/crypto.ts 40-43): base64 decode
of the public key, hash, base64 encode; `none` models the decoder throwing
on a malformed key. -/
def generateUserId (publicKey : Str) : Option Str :=
  (decodeBase64 publicKey).map (fun b => encodeBase64 (naclHash b))

/-- `CryptoManager.encryptDirectMessage` (src/lib/crypto.ts 45-59).  The
fresh random nonce produced by `nacl.randomBytes(nacl.box.nonceLength)` is
the explicit argument `nonce`; the result is the base64 encoding of the
nonce prepended to the box ciphertext. -/
def encryptDirectMessage (message recipientPublicKey senderPrivateKey nonce : Str) :
    Except JsError Str :=
  match decodeBase64 recipientPublicKey, decodeBase64 senderPrivateKey with
  | some recipientPubKey, some senderPrivKey =>
      .ok (encodeBase64 (nonce ++ naclBox message nonce recipientPubKey senderPrivKey))
  | _, _ => .error .invalidEncoding

/-- `CryptoManager.decryptDirectMessage` (src/lib/crypto.ts 61-73): split
the 24-byte nonce, open the box; throws `Decryption failed` when
`nacl.box.open` returns null. -/
def decryptDirectMessage (encryptedMessage senderPublicKey recipientPrivateKey : Str) :
    Except JsError Str :=
  match decodeBase64 encryptedMessage, decodeBase64 senderPublicKey,
      decodeBase64 recipientPrivateKey with
  | some combined, some senderPubKey, some recipientPrivKey =>
      match naclBoxOpen (combined.drop 24) (combined.take 24) senderPubKey recipientPrivKey with
      | some decrypted => .ok decrypted
      | none => .error .decryptionFailed
  | _, _, _ => .error .invalidEncoding

/-- `CryptoManager.encryptGroupMessage` (src/lib/crypto.ts 80-93): secretbox
under the decoded symmetric key with a fresh random 24-byte nonce (the
explicit argument), nonce prepended. -/
def encryptGroupMessage (message symmetricKey nonce : Str) : Except JsError Str :=
  match decodeBase64 symmetricKey with
  | some key => .ok (encodeBase64 (nonce ++ naclSecretbox message nonce key))
  | none => .error .invalidEncoding

/-- `CryptoManager.decryptGroupMessage` (src/lib/crypto.ts 95-106). -/
def decryptGroupMessage (encryptedMessage symmetricKey : Str) : Except JsError Str :=
  match decodeBase64 encryptedMessage, decodeBase64 symmetricKey with
  | some combined, some key =>
      match naclSecretboxOpen (combined.drop 24) (combined.take 24) key with
      | some decrypted => .ok decrypted
      | none => .error .decryptionFailed
  | _, _ => .error .invalidEncoding

/-- Model of `nacl.sign.detached`, viewed through the verification relation
only: the detached signature accepted for `message` under the key material
determined by `pk` (64 bytes, as in Ed25519). -/
def signModel (message pk : Str) : Str :=
  List.replicate 64 ((message.sum + pk.sum) % 256)

/-- Model of `nacl.sign.detached.verify`: tweetnacl throws on a signature
that is not 64 bytes or a public key that is not 32 bytes, and otherwise
returns a boolean. -/
def naclSignVerify (message sig pk : Str) : Except JsError Bool :=
  if sig.length ≠ 64 then .error .invalidEncoding
  else if pk.length ≠ 32 then .error .invalidEncoding
  else .ok (decide (sig = signModel message pk))

/-- `CryptoManager.verifySignature` (src/lib/crypto.ts 115-124): decode the
signature and the key, run the library verifier, and catch every exception,
returning false. -/
def verifySignature (message signature publicKey : Str) : Bool :=
  match decodeBase64 signature, decodeBase64 publicKey with
  | some sig, some pubKey =>
      match naclSignVerify message sig pubKey with
      | .ok b => b
      | .error _ => false
  | _, _ => false

/-- `CryptoManager.deriveKeyFromPassword` (src/lib/crypto.ts 126-132): the
source comment says tweetnacl has no scrypt and uses the plain hash of
`password + salt` as a fallback, truncated to `nacl.secretbox.keyLength`
(32) and base64-encoded. -/
def deriveKeyFromPassword (password salt : Str) : Str :=
  encodeBase64 ((naclHash (password ++ salt)).take 32)

/-- `CryptoManager.generateMessageHash` (src/lib/crypto.ts 179-183): hash of
the template string `content`, `timestamp`, `senderId` concatenated. -/
def generateMessageHash (content : Str) (timestamp : Nat) (senderId : Str) : Str :=
  encodeBase64 (naclHash (content ++ numStr timestamp ++ senderId))

/-- `CryptoManager.encryptBackupData` (src/lib/crypto.ts 218-237).  The
random salt from `generateSalt()` and the random nonce are explicit
arguments; the serialized data is secretboxed under the password-derived
key.  JSON.stringify of the arbitrary payload is modelled as the identity
on its byte representation.  Returns (encryptedData, salt). -/
def encryptBackupData (data password salt nonce : Str) : Option (Str × Str) :=
  match decodeBase64 (deriveKeyFromPassword password salt) with
  | some keyBytes => some (encodeBase64 (nonce ++ naclSecretbox data nonce keyBytes), salt)
  | none => none

/-- `CryptoManager.decryptBackupData` (src/lib/crypto.ts 239-251). -/
def decryptBackupData (encryptedData password salt : Str) : Except JsError Str :=
  match decodeBase64 (deriveKeyFromPassword password salt) with
  | some keyBytes =>
      match decodeBase64 encryptedData with
      | some combined =>
          match naclSecretboxOpen (combined.drop 24) (combined.take 24) keyBytes with
          | some decrypted => .ok decrypted
          | none => .error .decryptionFailed
      | none => .error .invalidEncoding
  | none => .error .invalidEncoding

/-- `SecuritySettings` (SecurityManager source, part_001 3-9). -/
structure SecuritySettings where
  enableEphemeralMessages : Bool
  defaultMessageTTL : Int
  requireMessageSigning : Bool
  enableForwardSecrecy : Bool
  maxMessageAge : Int
deriving DecidableEq

/-- The defaults set in the SecurityManager constructor (part_001 18-24):
24-hour TTL and a five-minute maximum message age. -/
def defaultSecuritySettings : SecuritySettings :=
  { enableEphemeralMessages := false
    defaultMessageTTL := 86400000
    requireMessageSigning := true
    enableForwardSecrecy := false
    maxMessageAge := 300000 }

/-- `SecurityManager.isMessageTimestampValid` (part_001 43-49):
`messageAge = now - timestamp`; valid iff `messageAge >= 0` and
`messageAge <= maxMessageAge`.  Timestamps are JS millisecond numbers,
modelled as integers because the age can be negative. -/
def isMessageTimestampValid (s : SecuritySettings) (now timestamp : Int) : Bool :=
  decide (0 ≤ now - timestamp) && decide (now - timestamp ≤ s.maxMessageAge)

/-- The backup JSON object built by `generateSecureBackup` (part_001
152-157). -/
structure BackupData where
  version : Str
  timestamp : Nat
  encryptedData : Str
  salt : Str
deriving DecidableEq

/-- The string literal `1.0` (the backup format version). -/
def ver10 : Str := [49, 46, 48]

/-- The string literal `backup` (the senderId passed to the checksum
hash). -/
def backupSenderId : Str := [98, 97, 99, 107, 117, 112]

/-- Model of `JSON.stringify` on the backup object: an injective
length-prefixed flat encoding. -/
def stringifyBackup (b : BackupData) : Str :=
  b.version.length ::
    (b.version ++
      (b.timestamp ::
        (b.encryptedData.length ::
          (b.encryptedData ++ (b.salt.length :: b.salt)))))

/-- Read one length-prefixed chunk. -/
def readChunk : Str → Option (Str × Str)
  | [] => none
  | n :: rest => if n ≤ rest.length then some (rest.take n, rest.drop n) else none

/-- Model of `JSON.parse` on the backup string: partial inverse of
`stringifyBackup`; `none` models the parser throwing. -/
def parseBackup (s : Str) : Option BackupData :=
  match readChunk s with
  | some (ver, r1) =>
      match r1 with
      | ts :: r2 =>
          match readChunk r2 with
          | some (enc, r3) =>
              match readChunk r3 with
              | some (salt, r4) =>
                  if r4 = [] then
                    some { version := ver, timestamp := ts, encryptedData := enc, salt := salt }
                  else none
              | none => none
          | none => none
      | [] => none
  | none => none

/-- Result of `SecurityManager.generateSecureBackup`. -/
structure BackupPair where
  backup : Str
  checksum : Str
deriving DecidableEq

/-- `SecurityManager.generateSecureBackup` (part_001 149-163): encrypt the
data, build the versioned backup object with a `Date.now()` reading
(`tsNow`), stringify it, and compute the checksum as
`generateMessageHash(backup, Date.now(), "backup")` with a second clock
reading (`ckNow`).  The salt and nonce drawn inside `encryptBackupData`
are explicit arguments. -/
def generateSecureBackup (data password salt nonce : Str) (tsNow ckNow : Nat) :
    Option BackupPair :=
  match encryptBackupData data password salt nonce with
  | some ed =>
      some
        { backup := stringifyBackup
            { version := ver10, timestamp := tsNow, encryptedData := ed.1, salt := ed.2 }
          checksum := generateMessageHash
            (stringifyBackup
              { version := ver10, timestamp := tsNow, encryptedData := ed.1, salt := ed.2 })
            ckNow backupSenderId }
  | none => none

/-- `SecurityManager.restoreFromSecureBackup` (part_001 166-180): recompute
the expected checksum from the backup string and the clock reading at
restore time (`now`); on mismatch throw `Backup integrity check failed`;
then parse, check the version, and decrypt. -/
def restoreFromSecureBackup (backup password expectedChecksum : Str) (now : Nat) :
    Except JsError Str :=
  if generateMessageHash backup now backupSenderId = expectedChecksum then
    match parseBackup backup with
    | some bd =>
        if bd.version = ver10 then decryptBackupData bd.encryptedData password bd.salt
        else .error .unsupportedBackupVersion
    | none => .error .jsonParseFailed
  else .error .backupIntegrityCheckFailed

/-- The `type` discriminator of a `NetworkMessage`
(src/lib/p2p-network.ts 3-12). -/
inductive MsgType where
  | directMessage : MsgType
  | groupMessage : MsgType
  | userStatus : MsgType
  | peerDiscovery : MsgType
deriving DecidableEq

/-- `NetworkMessage` (src/lib/p2p-network.ts 3-12); the `type` field is
named `mtype` here. -/
structure NetworkMessage where
  mtype : MsgType
  senderId : Str
  recipientId : Option Str
  groupId : Option Str
  content : Str
  timestamp : Nat
deriving DecidableEq

/-- `User` (lib/types.ts): only the fields the transport core reads. -/
structure User where
  id : Str
  publicKey : Str
  username : Str
  isOnline : Bool
deriving DecidableEq

/-- `Contact` (lib/types.ts): only the fields the router reads. -/
structure Contact where
  id : Str
  publicKey : Str
  isOnline : Bool
  lastSeen : Int
deriving DecidableEq

/-- `Group` (lib/types.ts): only the fields the router reads. -/
structure ChatGroup where
  id : Str
  symmetricKey : Str
deriving DecidableEq

/-- Application-level `Message` (lib/types.ts) as constructed by
`MessageManager.handleNetworkMessage`. -/
structure Message where
  id : Str
  senderId : Str
  recipientId : Option Str
  groupId : Option Str
  content : Str
  timestamp : Nat
  isEncrypted : Bool
deriving DecidableEq

/-- Update-or-append on a keyed store: the semantics of
`localforage.setItem` / JS object key assignment. -/
def setItem {α : Type} (l : List (Str × α)) (k : Str) (v : α) : List (Str × α) :=
  if l.any (fun e => decide (e.1 = k)) then
    l.map (fun e => if e.1 = k then (k, v) else e)
  else
    l ++ [(k, v)]

/-- State owned by `MessageManager` together with its persistence
collaborator `StorageManager`: the current user, the contact store, the
local key pair, the group store and the message store (keyed by message
id). -/
structure RouterState where
  currentUser : Option User
  contacts : List Contact
  keyPair : Option KeyPair
  groups : List ChatGroup
  messages : List (Str × Message)
deriving DecidableEq

/-- Model of `JSON.parse` of a `user_status` payload, reduced to the
`isOnline` flag the handler reads; `none` models the parser throwing. -/
def statusParse : Str → Option Bool
  | [0] => some false
  | [1] => some true
  | _ => none

/-- `MessageManager.handleUserStatusUpdate` (src/lib/crypto.ts 852-860):
if the sender is a known contact, set its online flag and refresh
`lastSeen` to the current clock reading. -/
def updateContactStatus (contacts : List Contact) (senderId : Str) (online : Bool)
    (now : Int) : List Contact :=
  contacts.map (fun c =>
    if c.id = senderId then { c with isOnline := online, lastSeen := now } else c)

/-- The ASCII hyphen used in the message id template. -/
def dash : Str := [45]

/-- The `Message` object built on the accepted inbound paths of
`handleNetworkMessage`: id is the template `senderId + "-" + timestamp`,
the envelope timestamp is kept, and the message is flagged encrypted. -/
def mkRouterMessage (e : NetworkMessage) (recipientId groupId : Option Str)
    (plain : Str) : Message :=
  { id := e.senderId ++ dash ++ numStr e.timestamp
    senderId := e.senderId
    recipientId := recipientId
    groupId := groupId
    content := plain
    timestamp := e.timestamp
    isEncrypted := true }

/-- `MessageManager.handleNetworkMessage` (src/lib/crypto.ts 749-850),
returning the updated state together with the list of `Message` values
passed to the registered message listeners:

* direct message: dropped unless `recipientId` strictly equals the current
  user id; dropped when the sender is not a stored contact; dropped
  without a key pair; dropped when decryption throws; otherwise a
  `Message` with id `senderId + "-" + timestamp` is saved to the message
  store and every listener is notified with it;
* group message: dropped when the group id is missing or unknown, or when
  decryption throws; otherwise saved and delivered the same way;
* user status: parse the payload and update the contact store; nothing is
  delivered to message listeners;
* anything else: dropped. -/
def handleNetworkMessage (st : RouterState) (e : NetworkMessage) (now : Int) :
    RouterState × List Message :=
  match e.mtype with
  | .directMessage =>
      if e.recipientId = st.currentUser.map (fun u => u.id) then
        match st.contacts.find? (fun c => decide (c.id = e.senderId)) with
        | some contact =>
            match st.keyPair with
            | some kp =>
                match decryptDirectMessage e.content contact.publicKey kp.privateKey with
                | .ok plain =>
                    ({ st with messages :=
                        (setItem st.messages
                          (mkRouterMessage e (st.currentUser.map (fun u => u.id)) none plain).id
                          (mkRouterMessage e (st.currentUser.map (fun u => u.id)) none plain)) },
                      [mkRouterMessage e (st.currentUser.map (fun u => u.id)) none plain])
                | .error _ => (st, [])
            | none => (st, [])
        | none => (st, [])
      else (st, [])
  | .groupMessage =>
      match e.groupId with
      | some gid =>
          match st.groups.find? (fun g => decide (g.id = gid)) with
          | some group =>
              match decryptGroupMessage e.content group.symmetricKey with
              | .ok plain =>
                  ({ st with messages :=
                      (setItem st.messages
                        (mkRouterMessage e none (some gid) plain).id
                        (mkRouterMessage e none (some gid) plain)) },
                    [mkRouterMessage e none (some gid) plain])
              | .error _ => (st, [])
          | none => (st, [])
      | none => (st, [])
  | .userStatus =>
      match statusParse e.content with
      | some online => ({ st with contacts := updateContactStatus st.contacts e.senderId online now }, [])
      | none => (st, [])
  | .peerDiscovery => (st, [])

/-- The inbound pipeline as wired by `MessageManager.initialize`:
`P2PNetworkManager.handleIncomingMessage` (src/lib/p2p-network.ts 236-244)
drops own echoes (`senderId === currentUser?.id`) and forwards everything
else to the registered handler, which is `handleNetworkMessage`. -/
def deliverToRouter (st : RouterState) (e : NetworkMessage) (now : Int) :
    RouterState × List Message :=
  match st.currentUser with
  | some u => if e.senderId = u.id then (st, []) else handleNetworkMessage st e now
  | none => handleNetworkMessage st e now

/-- Deliver the same envelope twice in a row and collect every `Message`
that reached the subscribers. -/
def deliverTwice (st : RouterState) (e : NetworkMessage) (now : Int) : List Message :=
  (deliverToRouter st e now).2 ++ (deliverToRouter (deliverToRouter st e now).1 e now).2

/-- State owned by `P2PNetworkManager` for peer tracking: the in-memory
`peers` map (keys only; every stored peer connection has
`isConnected: true`) and the `p2p-discovered-peers` localStorage object of
(peerId, lastSeen) entries. -/
structure NetState where
  peers : List Str
  storedPeers : List (Str × Int)
deriving DecidableEq

/-- `P2PNetworkManager.handlePeerDiscovery` (src/lib/p2p-network.ts
120-134): if the peer is not yet in the peers map, add it, emit exactly one
connect notification `(peerId, true)`, and store (peerId, now) in the
discovered-peers object via `storePeerInfo`. -/
def handlePeerDiscovery (st : NetState) (peerId : Str) (now : Int) :
    NetState × List (Str × Bool) :=
  if peerId ∈ st.peers then (st, [])
  else
    ({ peers := st.peers ++ [peerId], storedPeers := setItem st.storedPeers peerId now },
      [(peerId, true)])

/-- `P2PNetworkManager.cleanupOldPeers` (src/lib/p2p-network.ts 185-210):
for every stored entry with `now - lastSeen > 30000` (the 30-second
`maxAge`), delete it from the stored object, delete the peer from the
peers map, and emit one disconnect notification `(peerId, false)`.
`Object.entries` snapshots the entries before the loop, so the removal is
a filter over the initial entry list. -/
def cleanupOldPeers (now : Int) (st : NetState) : NetState × List (Str × Bool) :=
  let stale := st.storedPeers.filter (fun e => decide (now - e.2 > 30000))
  ({ peers := st.peers.filter (fun q => ! stale.any (fun e => decide (e.1 = q)))
     storedPeers := st.storedPeers.filter (fun e => ! decide (now - e.2 > 30000)) },
    stale.map (fun e => (e.1, false)))

/-- `P2PNetworkManager.handleIncomingMessage` (src/lib/p2p-network.ts
236-244): drop when `senderId === currentUser?.id`, otherwise invoke every
registered message handler with the envelope.  Returns the handler
results, one entry per notified handler. -/
def handleIncomingMessage {α : Type} (currentUser : Option User)
    (handlers : List (NetworkMessage → α)) (m : NetworkMessage) : List α :=
  match currentUser with
  | some u => if m.senderId = u.id then [] else handlers.map (fun h => h m)
  | none => handlers.map (fun h => h m)

/-- JS truthiness of an optional string: undefined and the empty string are
falsy. -/
def jsTruthy : Option Str → Bool
  | none => false
  | some s => decide (s ≠ [])

/-- Payload of a cross-tab broadcast (src/lib/p2p-network.ts 100-118):
either a wrapped network message or a peer announcement (`now` is the
`Date.now()` reading taken when the discovered peer is stored). -/
inductive CrossTabData where
  | networkMessage (message : NetworkMessage) : CrossTabData
  | peerAnnouncement (userId : Str) (now : Int) : CrossTabData

/-- `P2PNetworkManager.handleCrossTabMessage` (src/lib/p2p-network.ts
100-118).  For a network message: drop when a truthy `recipientId`
differs from the current user id, drop own messages, otherwise forward to
`handleIncomingMessage`.  For a peer announcement: ignore own
announcements, otherwise run peer discovery.  Returns the updated peer
state, the peer status notifications, and the handler deliveries. -/
def handleCrossTabMessage {α : Type} (currentUser : Option User)
    (handlers : List (NetworkMessage → α)) (st : NetState) :
    CrossTabData → NetState × List (Str × Bool) × List α
  | .networkMessage m =>
      if jsTruthy m.recipientId && decide (m.recipientId ≠ currentUser.map (fun u => u.id)) then
        (st, [], [])
      else if (match currentUser with
               | some u => decide (m.senderId = u.id)
               | none => false) then
        (st, [], [])
      else
        (st, [], handleIncomingMessage currentUser handlers m)
  | .peerAnnouncement uid now =>
      if (match currentUser with
          | some u => decide (uid = u.id)
          | none => false) then
        (st, [], [])
      else
        ((handlePeerDiscovery st uid now).1, (handlePeerDiscovery st uid now).2, [])

/-- `handleCreateNewUser` (auth screen, part_005 27-65): generate a key
pair (`sk` is the random secret drawn inside), derive the user id from the
public key, and accept the user. -/
def handleCreateNewUser (sk username : Str) : Option User :=
  if username = [] then none
  else
    match generateUserId (generateKeyPair sk).publicKey with
    | some uid =>
        some { id := uid, publicKey := (generateKeyPair sk).publicKey,
               username := username, isOnline := true }
    | none => none

/-- `handleImportUser` (auth screen, part_005 67-118): reject an empty
username, an empty key, or a key whose length is not 64; otherwise the
public key is left empty (the source never derives it) and the user id is
computed from that empty public key. -/
def handleImportUser (username importData : Str) : Option User :=
  if username = [] then none
  else if importData = [] then none
  else if importData.length ≠ 64 then none
  else
    match generateUserId [] with
    | some uid =>
        some { id := uid, publicKey := [], username := username, isOnline := true }
    | none => none

/-! Concrete sample values used by witnesses and counterexamples. -/

/-- Concrete sender secret key (scalar 3). -/
def cSkS : Str := 3 :: List.replicate 31 0

/-- Concrete recipient secret key (scalar 5). -/
def cSkR : Str := 5 :: List.replicate 31 0

/-- Concrete sender id. -/
def cSenderId : Str := [7]

/-- Concrete local user id. -/
def cMyId : Str := [9]

/-- Concrete local user. -/
def cUser : User :=
  { id := cMyId, publicKey := encodeBase64 (pubOfPriv cSkR), username := [98], isOnline := true }

/-- Concrete stored contact for the sender. -/
def cContact : Contact :=
  { id := cSenderId, publicKey := encodeBase64 (pubOfPriv cSkS), isOnline := false, lastSeen := 0 }

/-- Concrete ciphertext of the plaintext `hi` from the sender to the local
user. -/
def cCipher : Str :=
  match encryptDirectMessage [104, 105] (encodeBase64 (pubOfPriv cSkR)) (encodeBase64 cSkS)
      (List.replicate 24 7) with
  | .ok c => c
  | .error _ => []

/-- Concrete router state of the local user with the sender as its only
contact. -/
def cState : RouterState :=
  { currentUser := some cUser, contacts := [cContact], keyPair := some (generateKeyPair cSkR),
    groups := [], messages := [] }

/-- Concrete inbound direct-message envelope for the local user. -/
def cEnv : NetworkMessage :=
  { mtype := .directMessage, senderId := cSenderId, recipientId := some cMyId,
    groupId := none, content := cCipher, timestamp := 0 }

/-- The `Message` the router constructs from `cEnv`. -/
def cMsg : Message :=
  { id := cSenderId ++ dash ++ numStr 0, senderId := cSenderId, recipientId := some cMyId,
    groupId := none, content := [104, 105], timestamp := 0, isEncrypted := true }

/-- The router state after the first delivery of `cEnv`. -/
def cState1 : RouterState :=
  { cState with messages := [(cMsg.id, cMsg)] }

/-- Concrete envelope whose sender is the local user itself. -/
def cSelfEnv : NetworkMessage :=
  { mtype := .directMessage, senderId := cMyId, recipientId := none, groupId := none,
    content := [], timestamp := 0 }

/-- Empty network peer state. -/
def cNetState0 : NetState := { peers := [], storedPeers := [] }

/-- Concrete peer state with one stale stored peer. -/
def cNetState7 : NetState := { peers := [[5]], storedPeers := [([5], 0)] }

/-- Concrete router state with no contacts. -/
def cStateNoContacts : RouterState :=
  { cState with contacts := [] }

/-- Concrete backup pair produced at clock readings 11 (object timestamp)
and 12 (checksum). -/
def cBackupPair : BackupPair :=
  match generateSecureBackup [1, 2, 3] [112] [115] (List.replicate 24 4) 11 12 with
  | some bp => bp
  | none => { backup := [], checksum := [] }

/-! General lemmas about the byte-level model. -/

theorem byteOk_iff (l : Str) : byteOk l = true ↔ ∀ b ∈ l, b < 256 := by
  simp [byteOk, List.all_eq_true]

theorem byteOk_append (l r : Str) :
    byteOk (l ++ r) = true ↔ byteOk l = true ∧ byteOk r = true := by
  simp [byteOk, List.all_append]

theorem byteOk_take (l : Str) (n : Nat) (h : byteOk l = true) :
    byteOk (l.take n) = true := by
  rw [byteOk_iff] at h ⊢
  exact fun b hb => h b (List.mem_of_mem_take hb)

theorem decodeBase64_encodeBase64 (l : Str) (h : ∀ b ∈ l, b < 256) :
    decodeBase64 (encodeBase64 l) = some l := by
  induction l with
  | nil => rfl
  | cons b rest ih =>
      have hb : b < 256 := h b (List.mem_cons_self b rest)
      have hdiv : b / 16 < 16 := by omega
      have hmod : b % 16 < 16 := by omega
      have hrest : decodeBase64 (encodeBase64 rest) = some rest :=
        ih (fun x hx => h x (List.mem_cons_of_mem b hx))
      have hval : b / 16 * 16 + b % 16 = b := by omega
      simp [encodeBase64, decodeBase64, hdiv, hmod, hrest, hval]

theorem encodeBase64_injective : ∀ l₁ l₂ : Str,
    encodeBase64 l₁ = encodeBase64 l₂ → l₁ = l₂ := by
  intro l₁
  induction l₁ with
  | nil =>
      intro l₂ h
      cases l₂ with
      | nil => rfl
      | cons b rest => simp [encodeBase64] at h
  | cons b rest ih =>
      intro l₂ h
      cases l₂ with
      | nil => simp [encodeBase64] at h
      | cons c rest₂ =>
          simp [encodeBase64] at h
          obtain ⟨h1, h2, h3⟩ := h
          have hbc : b = c := by omega
          rw [hbc, ih rest₂ h3]

theorem naclHash_injective (l₁ l₂ : Str) (h : naclHash l₁ = naclHash l₂) :
    l₁ = l₂ := by
  simpa [naclHash] using h

theorem byteOk_naclHash (l : Str) (h : byteOk l = true) :
    byteOk (naclHash l) = true := by
  rw [byteOk_iff] at h ⊢
  intro b hb
  simp [naclHash] at hb
  cases hb with
  | inl hb => omega
  | inr hb => exact h b hb

theorem digitsFuel_eq_digits (fuel n : Nat) (h : n ≤ fuel) :
    digitsFuel fuel n = Nat.digits 10 n := by
  induction fuel generalizing n with
  | zero =>
      have hn : n = 0 := by omega
      subst hn
      simp [digitsFuel]
  | succ f ih =>
      by_cases hn : n = 0
      · subst hn
        simp [digitsFuel]
      · have hpos : 0 < n := Nat.pos_of_ne_zero hn
        have hdiv : n / 10 ≤ f := by
          have hlt : n / 10 < n := Nat.div_lt_self hpos (by omega)
          omega
        rw [digitsFuel, if_neg hn, ih _ hdiv,
          Nat.digits_def' (by omega : 1 < 10) hpos]

theorem numVal_numStr (n : Nat) : numVal (numStr n) = n := by
  unfold numVal numStr
  by_cases h : n = 0
  · subst h
    simp [Nat.ofDigits]
  · rw [if_neg h, digitsFuel_eq_digits n n (Nat.le_refl n), List.map_map]
    have hcomp : (Nat.digits 10 n).reverse.map ((fun d => d - 48) ∘ fun d => d + 48)
        = (Nat.digits 10 n).reverse.map id := by
      refine List.map_congr_left ?_
      intro a _
      simp
    rw [hcomp, List.map_id, List.reverse_reverse, Nat.ofDigits_digits]

theorem numStr_injective (m n : Nat) (h : numStr m = numStr n) : m = n := by
  have := congrArg numVal h
  rwa [numVal_numStr, numVal_numStr] at this

theorem append_left_cancel_own (l a b : Str) (h : l ++ a = l ++ b) : a = b := by
  induction l with
  | nil => simpa using h
  | cons x rest ih =>
      simp only [List.cons_append, List.cons.injEq] at h
      exact ih h.2

theorem append_right_cancel_own (a b s : Str) (h : a ++ s = b ++ s) : a = b := by
  have h1 := congrArg List.reverse h
  simp only [List.reverse_append] at h1
  have h2 := append_left_cancel_own _ _ _ h1
  have h3 := congrArg List.reverse h2
  simpa using h3

theorem bytesToNat_replicate_zero (n : Nat) :
    bytesToNat (List.replicate n 0) = 0 := by
  induction n with
  | zero => rfl
  | succ k ih => simp [List.replicate, bytesToNat, ih]

theorem bytesToNat_natToBytes32 (x : Nat) :
    bytesToNat (natToBytes32 x) = x % 256 := by
  simp [natToBytes32, bytesToNat, bytesToNat_replicate_zero]

theorem byteOk_natToBytes32 (x : Nat) : byteOk (natToBytes32 x) = true := by
  rw [byteOk_iff]
  intro b hb
  simp [natToBytes32] at hb
  cases hb with
  | inl hb => omega
  | inr hb => omega

theorem byteOk_pubOfPriv (sk : Str) : byteOk (pubOfPriv sk) = true :=
  byteOk_natToBytes32 _

theorem sharedOf_comm (a b : Str) :
    sharedOf (pubOfPriv a) b = sharedOf (pubOfPriv b) a := by
  have hP : 0 < dhP := by decide
  have key : ∀ x y : Nat, bytesToNat (natToBytes32 (dhG ^ x % dhP)) = dhG ^ x % dhP := by
    intro x y
    rw [bytesToNat_natToBytes32]
    have h2 : dhG ^ x % dhP < 251 := by
      have h3 : dhG ^ x % dhP < dhP := Nat.mod_lt _ hP
      simpa [dhP] using h3
    omega
  unfold sharedOf pubOfPriv
  rw [key _ 0, key _ 0]
  rw [← Nat.pow_mod, ← Nat.pow_mod, ← Nat.pow_mul, ← Nat.pow_mul, Nat.mul_comm]

theorem decByte_encByte (s b : Nat) (hs : s < 256) (hb : b < 256) :
    decByte s (encByte s b) = b := by
  unfold decByte encByte
  omega

theorem take_append_len (l r : Str) : (l ++ r).take l.length = l := by
  induction l with
  | nil => simp
  | cons b rest ih => simp [ih]

theorem drop_append_len (l r : Str) : (l ++ r).drop l.length = r := by
  induction l with
  | nil => simp
  | cons b rest ih => simp [ih]

theorem byteOk_sealWith (s : Nat) (m : Str) : byteOk (sealWith s m) = true := by
  rw [byteOk_iff]
  intro b hb
  simp [sealWith, macTag, encByte] at hb
  rcases hb with hb | ⟨x, hx, hxe⟩
  · omega
  · omega

theorem openWith_sealWith (s : Nat) (m : Str) (hs : s < 256)
    (hm : ∀ b ∈ m, b < 256) : openWith s (sealWith s m) = some m := by
  have hseal : sealWith s m = macTag s (m.map (encByte s)) ++ m.map (encByte s) := rfl
  have hlen : (macTag s (m.map (encByte s))).length = 16 := by
    simp [macTag]
  have htake : (macTag s (m.map (encByte s)) ++ m.map (encByte s)).take 16
      = macTag s (m.map (encByte s)) := by
    have h1 := take_append_len (macTag s (m.map (encByte s))) (m.map (encByte s))
    rwa [hlen] at h1
  have hdrop : (macTag s (m.map (encByte s)) ++ m.map (encByte s)).drop 16
      = m.map (encByte s) := by
    have h1 := drop_append_len (macTag s (m.map (encByte s))) (m.map (encByte s))
    rwa [hlen] at h1
  have hnotshort : ¬ (macTag s (m.map (encByte s)) ++ m.map (encByte s)).length < 16 := by
    simp [macTag]
  rw [openWith, hseal, if_neg hnotshort, htake, hdrop, if_pos rfl]
  congr 1
  rw [List.map_map]
  have hcomp : ∀ b ∈ m, (decByte s ∘ encByte s) b = id b := by
    intro b hb
    show decByte s (encByte s b) = b
    exact decByte_encByte s b hs (hm b hb)
  calc m.map (decByte s ∘ encByte s) = m.map id := List.map_congr_left hcomp
    _ = m := List.map_id m

theorem streamByte_lt (shared : Nat) (nonce : Str) : streamByte shared nonce < 256 :=
  Nat.mod_lt _ (by decide)

theorem naclBoxOpen_naclBox (m nonce : Str) (skS skR : Str)
    (hm : ∀ b ∈ m, b < 256) :
    naclBoxOpen (naclBox m nonce (pubOfPriv skR) skS) nonce (pubOfPriv skS) skR
      = some m := by
  unfold naclBox naclBoxOpen
  rw [sharedOf_comm skR skS]
  exact openWith_sealWith _ m (streamByte_lt _ _) hm

theorem naclSecretboxOpen_naclSecretbox (m nonce key : Str)
    (hm : ∀ b ∈ m, b < 256) :
    naclSecretboxOpen (naclSecretbox m nonce key) nonce key = some m :=
  openWith_sealWith _ m (streamByte_lt _ _) hm

/-! Lemmas about the backup serialization and checksum. -/

theorem readChunk_append (l r : Str) : readChunk (l.length :: (l ++ r)) = some (l, r) := by
  have hle : l.length ≤ (l ++ r).length := by
    simp
  rw [readChunk, if_pos hle, take_append_len, drop_append_len]

theorem parseBackup_stringifyBackup (b : BackupData) :
    parseBackup (stringifyBackup b) = some b := by
  have h3 : readChunk (b.salt.length :: b.salt) = some (b.salt, []) := by
    have h4 := readChunk_append b.salt []
    simpa using h4
  simp [parseBackup, stringifyBackup, readChunk_append, h3]

theorem generateMessageHash_time_injective (content s : Str) (t1 t2 : Nat)
    (h : generateMessageHash content t1 s = generateMessageHash content t2 s) :
    t1 = t2 := by
  unfold generateMessageHash at h
  have h1 := encodeBase64_injective _ _ h
  have h2 := naclHash_injective _ _ h1
  have h3 : numStr t1 ++ s = numStr t2 ++ s := by
    rw [List.append_assoc, List.append_assoc] at h2
    exact append_left_cancel_own _ _ _ h2
  have h4 := append_right_cancel_own _ _ _ h3
  exact numStr_injective _ _ h4

/-! Lemmas about the keyed stores. -/

theorem setItem_idem {α : Type} (l : List (Str × α)) (k : Str) (v : α) :
    setItem (setItem l k v) k v = setItem l k v := by
  by_cases hany : l.any (fun e => decide (e.1 = k)) = true
  · have hmap : (l.map (fun e => if e.1 = k then (k, v) else e)).any
        (fun e => decide (e.1 = k)) = true := by
      rw [List.any_eq_true] at hany ⊢
      obtain ⟨e, he, hk⟩ := hany
      refine ⟨(k, v), ?_, by simp⟩
      rw [List.mem_map]
      refine ⟨e, he, ?_⟩
      simp at hk
      simp [hk]
    have hinner : setItem l k v = l.map (fun e => if e.1 = k then (k, v) else e) := by
      rw [setItem, if_pos hany]
    rw [hinner, setItem, if_pos hmap, List.map_map]
    congr 1
    funext e
    by_cases hk : e.1 = k <;> simp [hk]
  · have happ : (l ++ [(k, v)]).any (fun e => decide (e.1 = k)) = true := by
      rw [List.any_eq_true]
      exact ⟨(k, v), by simp, by simp⟩
    have hinner : setItem l k v = l ++ [(k, v)] := by
      rw [setItem, if_neg hany]
    rw [hinner, setItem, if_pos happ, List.map_append]
    have hl : l.map (fun e => if e.1 = k then (k, v) else e) = l := by
      have hnone : ∀ e ∈ l, ¬ e.1 = k := by
        intro e he hk
        apply hany
        rw [List.any_eq_true]
        exact ⟨e, he, by simp [hk]⟩
      calc l.map (fun e => if e.1 = k then (k, v) else e) = l.map id := by
            refine List.map_congr_left ?_
            intro e he
            simp [hnone e he]
        _ = l := List.map_id l
    simp [hl]

theorem filter_key_and (l : List (Str × Int)) (p : Str) (t : Int)
    (q : Str × Int → Bool) (hnd : (l.map Prod.fst).Nodup) (hmem : (p, t) ∈ l)
    (hq : q (p, t) = true) :
    l.filter (fun e => decide (e.1 = p) && q e) = [(p, t)] := by
  induction l with
  | nil => cases hmem
  | cons a rest ih =>
      rw [List.map_cons, List.nodup_cons] at hnd
      obtain ⟨hna, hnd2⟩ := hnd
      rcases List.mem_cons.mp hmem with ha | hrest
      · subst ha
        have hrtail : rest.filter (fun e => decide (e.1 = p) && q e) = [] := by
          rw [List.filter_eq_nil_iff]
          intro e he
          have : e.1 ≠ p := by
            intro hep
            apply hna
            rw [List.mem_map]
            exact ⟨e, he, by simp [hep]⟩
          simp [this]
        simp [List.filter_cons, hq, hrtail]
      · have hap : a.1 ≠ p := by
          intro hap
          apply hna
          rw [List.mem_map]
          exact ⟨(p, t), hrest, by simp [hap]⟩
        simp only [List.filter_cons]
        rw [if_neg (by simp [hap])]
        exact ih hnd2 hrest

theorem key_unique (l : List (Str × Int)) (p : Str) (t t2 : Int)
    (hnd : (l.map Prod.fst).Nodup) (h1 : (p, t) ∈ l) (h2 : (p, t2) ∈ l) : t = t2 := by
  induction l with
  | nil => cases h1
  | cons a rest ih =>
      rw [List.map_cons, List.nodup_cons] at hnd
      obtain ⟨hna, hnd2⟩ := hnd
      rcases List.mem_cons.mp h1 with ha1 | hr1 <;> rcases List.mem_cons.mp h2 with ha2 | hr2
      · rw [← ha1] at ha2
        exact congrArg Prod.snd ha2.symm
      · exfalso
        apply hna
        rw [List.mem_map]
        exact ⟨(p, t2), hr2, by rw [← ha1]⟩
      · exfalso
        apply hna
        rw [List.mem_map]
        exact ⟨(p, t), hr1, by rw [← ha2]⟩
      · exact ih hnd2 hr1 hr2

theorem filter_key_map_false (l : List (Str × Int)) (p : Str) :
    ((l.map (fun e => (e.1, false))).filter (fun n => decide (n.1 = p)))
      = (l.filter (fun e => decide (e.1 = p))).map (fun e => (e.1, false)) := by
  induction l with
  | nil => rfl
  | cons a rest ih =>
      by_cases h : a.1 = p <;> simp [List.filter_cons, h, ih]

theorem filter_filter_own (l : List (Str × Int)) (q r : Str × Int → Bool) :
    (l.filter q).filter r = l.filter (fun e => r e && q e) := by
  induction l with
  | nil => rfl
  | cons a rest ih =>
      by_cases hq : q a = true <;> by_cases hr : r a = true <;>
        simp [List.filter_cons, hq, hr, ih]

/-! Claim theorems. -/

/-- Claim C1: for every plaintext and every valid key pair, decrypting the
result of `encryptDirectMessage` with the matching keys returns exactly the
plaintext, and the same round-trip holds for `encryptGroupMessage` /
`decryptGroupMessage` under any valid symmetric key.  Validity of the key
material means it consists of byte values, the secret halves being the
random buffers the generators draw; nonces are the 24-byte random buffers
drawn inside the encrypt calls. -/
theorem encryptThenDecryptRoundTrip
    (msg nonceD skS skR gkey nonceG : Str)
    (hmsg : byteOk msg = true)
    (hnD : byteOk nonceD = true) (hlD : nonceD.length = 24)
    (hskS : byteOk skS = true) (hskR : byteOk skR = true)
    (hgk : byteOk gkey = true)
    (hnG : byteOk nonceG = true) (hlG : nonceG.length = 24) :
    Except.bind
        (encryptDirectMessage msg (generateKeyPair skR).publicKey
          (generateKeyPair skS).privateKey nonceD)
        (fun c => decryptDirectMessage c (generateKeyPair skS).publicKey
          (generateKeyPair skR).privateKey) = .ok msg
    ∧ Except.bind (encryptGroupMessage msg (encodeBase64 gkey) nonceG)
        (fun c => decryptGroupMessage c (encodeBase64 gkey)) = .ok msg := by
  constructor
  · have hpkR := decodeBase64_encodeBase64 (pubOfPriv skR)
      ((byteOk_iff _).mp (byteOk_pubOfPriv skR))
    have hpkS := decodeBase64_encodeBase64 (pubOfPriv skS)
      ((byteOk_iff _).mp (byteOk_pubOfPriv skS))
    have hs := decodeBase64_encodeBase64 skS ((byteOk_iff _).mp hskS)
    have hr := decodeBase64_encodeBase64 skR ((byteOk_iff _).mp hskR)
    have hbody : byteOk (nonceD ++ naclBox msg nonceD (pubOfPriv skR) skS) = true := by
      rw [byteOk_append]
      exact ⟨hnD, byteOk_sealWith _ _⟩
    have hcomb := decodeBase64_encodeBase64 _ ((byteOk_iff _).mp hbody)
    have htake : (nonceD ++ naclBox msg nonceD (pubOfPriv skR) skS).take 24 = nonceD := by
      rw [← hlD]
      exact take_append_len _ _
    have hdrop : (nonceD ++ naclBox msg nonceD (pubOfPriv skR) skS).drop 24
        = naclBox msg nonceD (pubOfPriv skR) skS := by
      rw [← hlD]
      exact drop_append_len _ _
    have hopen := naclBoxOpen_naclBox msg nonceD skS skR ((byteOk_iff _).mp hmsg)
    simp only [encryptDirectMessage, decryptDirectMessage, generateKeyPair, hpkR, hpkS,
      hs, hr, hcomb, htake, hdrop, hopen, Except.bind]
  · have hk := decodeBase64_encodeBase64 gkey ((byteOk_iff _).mp hgk)
    have hbody : byteOk (nonceG ++ naclSecretbox msg nonceG gkey) = true := by
      rw [byteOk_append]
      exact ⟨hnG, byteOk_sealWith _ _⟩
    have hcomb := decodeBase64_encodeBase64 _ ((byteOk_iff _).mp hbody)
    have htake : (nonceG ++ naclSecretbox msg nonceG gkey).take 24 = nonceG := by
      rw [← hlG]
      exact take_append_len _ _
    have hdrop : (nonceG ++ naclSecretbox msg nonceG gkey).drop 24
        = naclSecretbox msg nonceG gkey := by
      rw [← hlG]
      exact drop_append_len _ _
    have hopen := naclSecretboxOpen_naclSecretbox msg nonceG gkey ((byteOk_iff _).mp hmsg)
    simp only [encryptGroupMessage, decryptGroupMessage, hk, hcomb, htake, hdrop,
      hopen, Except.bind]

/-- Witness for claim C1 at a concrete plaintext, key pairs, symmetric key
and nonces. -/
theorem encryptThenDecryptRoundTrip_witness :
    Except.bind
        (encryptDirectMessage [104, 105]
          (generateKeyPair (5 :: List.replicate 31 0)).publicKey
          (generateKeyPair (3 :: List.replicate 31 0)).privateKey
          (List.replicate 24 7))
        (fun c => decryptDirectMessage c
          (generateKeyPair (3 :: List.replicate 31 0)).publicKey
          (generateKeyPair (5 :: List.replicate 31 0)).privateKey) = .ok [104, 105]
    ∧ Except.bind
        (encryptGroupMessage [104, 105] (encodeBase64 (List.replicate 32 2))
          (List.replicate 24 9))
        (fun c => decryptGroupMessage c (encodeBase64 (List.replicate 32 2)))
      = .ok [104, 105] :=
  encryptThenDecryptRoundTrip [104, 105] (List.replicate 24 7)
    (3 :: List.replicate 31 0) (5 :: List.replicate 31 0)
    (List.replicate 32 2) (List.replicate 24 9)
    (by decide) (by decide) (by decide) (by decide) (by decide) (by decide)
    (by decide) (by decide)

/-- Claim C4 (code evaluation): `deriveKeyFromPassword` is the plain hash
of the concatenation `password + salt`, so the boundary between password
and salt is lost: moving characters from the salt to the password leaves
the derived key unchanged, which no memory-hard Argon2id-style derivation
keyed separately on password and salt would do.  The closed conjunct
evaluates the collision at the failing input password `a`, salt `bc`
versus password `ab`, salt `c`. -/
theorem deriveKeyFromPasswordIsPlainConcatHash :
    (∀ password s1 s2 : Str,
        deriveKeyFromPassword password (s1 ++ s2)
          = deriveKeyFromPassword (password ++ s1) s2)
    ∧ deriveKeyFromPassword [97] [98, 99] = deriveKeyFromPassword [97, 98] [99] := by
  constructor
  · intro p s1 s2
    unfold deriveKeyFromPassword
    rw [List.append_assoc]
  · decide

/-- Counterexample for claim C3: the timestamp `now + 1000` lies within
five minutes on either side of `now` (here `now = 1000000`), yet
`isMessageTimestampValid` rejects it, because the code rejects every
timestamp from the future: the window is one-sided, not the claimed plus
or minus five minutes. -/
theorem freshnessWindowNotTwoSided :
    ((1000000 : Int) - 1001000).natAbs ≤ 300000
      ∧ isMessageTimestampValid defaultSecuritySettings 1000000 1001000 = false := by
  decide

/-- Claim C3 as amended: the timestamp predicate accepts exactly the
timestamps that are at most five minutes in the past and not in the
future (`ts ≤ now` and `now - ts ≤ 300000`); in particular a timestamp ten
minutes old is rejected by the predicate.  Moreover the inbound router
never consults the predicate: the closed conjunct shows a decryptable
envelope whose timestamp (0) is arbitrarily stale being delivered to the
subscriber anyway. -/
theorem freshnessPredicateOneSidedAndUnenforced :
    (∀ now ts : Int,
        isMessageTimestampValid defaultSecuritySettings now ts = true
          ↔ ts ≤ now ∧ now - ts ≤ 300000)
    ∧ (∀ now ts : Int, now - ts = 600000 →
        isMessageTimestampValid defaultSecuritySettings now ts = false)
    ∧ (deliverToRouter cState cEnv 0).2.length = 1 := by
  refine ⟨?_, ?_, ?_⟩
  · intro now ts
    simp only [isMessageTimestampValid, defaultSecuritySettings, Bool.and_eq_true,
      decide_eq_true_eq]
    omega
  · intro now ts h
    simp only [isMessageTimestampValid, defaultSecuritySettings]
    have h2 : ¬ (now - ts ≤ (300000 : Int)) := by omega
    simp [h2]
  · decide

/-- Witness for the amended claim C3: a timestamp exactly ten minutes old
is rejected by the predicate. -/
theorem freshnessPredicateOneSidedAndUnenforced_witness :
    isMessageTimestampValid defaultSecuritySettings 600000 0 = false :=
  freshnessPredicateOneSidedAndUnenforced.2.1 600000 0 (by decide)

/-- Claim C9: `verifySignature` is a total boolean function (the model has
no other effect, mirroring the catch-all in the source), and whenever it
returns true the inputs were well formed: the signature and the key both
decode, the signature is 64 bytes and the key 32 bytes.  Contrapositively,
on any malformed input it returns false rather than raising. -/
theorem verifySignatureFalseOnMalformedInput (m s pk : Str)
    (h : verifySignature m s pk = true) :
    ∃ sig pubKey, decodeBase64 s = some sig ∧ decodeBase64 pk = some pubKey
      ∧ sig.length = 64 ∧ pubKey.length = 32 := by
  unfold verifySignature naclSignVerify at h
  cases hd1 : decodeBase64 s with
  | none => rw [hd1] at h; cases h
  | some sig =>
      cases hd2 : decodeBase64 pk with
      | none => rw [hd1, hd2] at h; cases h
      | some pubKey =>
          rw [hd1, hd2] at h
          by_cases hl1 : sig.length = 64
          · by_cases hl2 : pubKey.length = 32
            · exact ⟨sig, pubKey, rfl, rfl, hl1, hl2⟩
            · exfalso
              simp [hl1, hl2] at h
          · exfalso
            simp [hl1] at h

/-- Witness for claim C9: a well-formed input on which `verifySignature`
returns true, together with the well-formedness the theorem yields. -/
theorem verifySignatureFalseOnMalformedInput_witness :
    verifySignature [] (encodeBase64 (List.replicate 64 0))
        (encodeBase64 (List.replicate 32 0)) = true
    ∧ ∃ sig pubKey,
        decodeBase64 (encodeBase64 (List.replicate 64 0)) = some sig
          ∧ decodeBase64 (encodeBase64 (List.replicate 32 0)) = some pubKey
          ∧ sig.length = 64 ∧ pubKey.length = 32 :=
  ⟨by decide,
    verifySignatureFalseOnMalformedInput [] (encodeBase64 (List.replicate 64 0))
      (encodeBase64 (List.replicate 32 0)) (by decide)⟩

/-- Claim C5: an inbound envelope whose `senderId` equals the local user
id is never delivered to any registered handler, silently and without an
error, on both modelled receive entry points: the common
`handleIncomingMessage` sink (which the signaling and data-channel paths
also funnel into) and the cross-tab path `handleCrossTabMessage`. -/
theorem selfEchoNeverDelivered {α : Type} (u : User)
    (handlers : List (NetworkMessage → α)) (st : NetState) (m : NetworkMessage)
    (h : m.senderId = u.id) :
    handleIncomingMessage (some u) handlers m = []
      ∧ (handleCrossTabMessage (some u) handlers st (.networkMessage m)).2.2 = [] := by
  have h1 : handleIncomingMessage (some u) handlers m = [] := by
    simp [handleIncomingMessage, h]
  refine ⟨h1, ?_⟩
  simp only [handleCrossTabMessage]
  split
  · rfl
  · split
    · rfl
    · simp [h1]

/-- Witness for claim C5 at a concrete self-addressed envelope, user,
handler list and peer state. -/
theorem selfEchoNeverDelivered_witness :
    handleIncomingMessage (some cUser) [fun _ : NetworkMessage => (0 : Nat)] cSelfEnv
        = []
      ∧ (handleCrossTabMessage (some cUser) [fun _ : NetworkMessage => (0 : Nat)]
          cNetState0 (.networkMessage cSelfEnv)).2.2 = [] :=
  selfEchoNeverDelivered cUser [fun _ : NetworkMessage => (0 : Nat)] cNetState0
    cSelfEnv (by decide)

/-- Claim C6: an inbound direct-message envelope whose sender is not in
the contact store is dropped (after a warning log): `handleNetworkMessage`
returns the state unchanged, so nothing is saved to the message store, and
delivers nothing to the subscribers. -/
theorem unknownSenderDirectMessageDropped (st : RouterState) (e : NetworkMessage)
    (now : Int) (h1 : e.mtype = .directMessage)
    (h2 : ∀ c ∈ st.contacts, c.id ≠ e.senderId) :
    handleNetworkMessage st e now = (st, []) := by
  have hfind : st.contacts.find? (fun c => decide (c.id = e.senderId)) = none := by
    rw [List.find?_eq_none]
    intro c hc
    simp [h2 c hc]
  unfold handleNetworkMessage
  rw [h1]
  by_cases hrec : e.recipientId = st.currentUser.map (fun u => u.id)
  · rw [if_pos hrec, hfind]
  · rw [if_neg hrec]

/-- Witness for claim C6 at a concrete state with an empty contact list
and a concrete decryptable direct-message envelope. -/
theorem unknownSenderDirectMessageDropped_witness :
    handleNetworkMessage cStateNoContacts cEnv 0 = (cStateNoContacts, []) :=
  unknownSenderDirectMessageDropped cStateNoContacts cEnv 0 (by decide)
    (by intro c hc; cases hc)

/-- Claim C8: every identity the auth screen accepts, whether created
fresh or imported, satisfies the invariant that its id is exactly the hash
of its stored public key, computed by `generateUserId` and never assigned
independently; equivalently, an identity violating the invariant is never
accepted.  (For the import flow the stored public key is the empty string
the source leaves behind, and the id is the hash of that empty key.) -/
theorem acceptedIdentityIdIsHashOfPublicKey :
    (∀ sk username u, handleCreateNewUser sk username = some u →
        generateUserId u.publicKey = some u.id)
    ∧ (∀ username importData u, handleImportUser username importData = some u →
        generateUserId u.publicKey = some u.id) := by
  constructor
  · intro sk username u h
    unfold handleCreateNewUser at h
    by_cases hu : username = []
    · rw [if_pos hu] at h
      cases h
    · rw [if_neg hu] at h
      cases hgen : generateUserId (generateKeyPair sk).publicKey with
      | none => rw [hgen] at h; cases h
      | some uid =>
          rw [hgen] at h
          cases h
          simpa using hgen
  · intro username importData u h
    unfold handleImportUser at h
    by_cases hu : username = []
    · rw [if_pos hu] at h
      cases h
    · rw [if_neg hu] at h
      by_cases hi : importData = []
      · rw [if_pos hi] at h
        cases h
      · rw [if_neg hi] at h
        by_cases hl : importData.length ≠ 64
        · rw [if_pos hl] at h
          cases h
        · rw [if_neg hl] at h
          cases hgen : generateUserId [] with
          | none => rw [hgen] at h; cases h
          | some uid =>
              rw [hgen] at h
              cases h
              simpa using hgen

/-- Every stale entry with the given key, filtered by key: the single
matching entry (keys are unique because the store is a JS object). -/
theorem stale_filter_key (l : List (Str × Int)) (p : Str) (t now : Int)
    (hnd : (l.map Prod.fst).Nodup) (hmem : (p, t) ∈ l) (hst : now - t > 30000) :
    (l.filter (fun e => decide (now - e.2 > 30000))).filter
        (fun n => decide (n.1 = p)) = [(p, t)] := by
  rw [filter_filter_own]
  exact filter_key_and l p t _ hnd hmem (by simp [hst])

/-- Claim C7: a peer whose stored announcement is older than the 30-second
TTL is removed by the expiry sweep from both the peers map and the stored
object, with exactly one disconnect notification `(p, false)` and no
connect notification; a later sweep emits no further notification for it;
and a subsequent re-announcement re-creates the peer and fires exactly one
connect notification `(p, true)`. -/
theorem peerExpiryOneDisconnectThenReconnect (st : NetState) (p : Str)
    (t now now2 now3 : Int) (hmem : (p, t) ∈ st.storedPeers)
    (hstale : now - t > 30000) (hnd : (st.storedPeers.map Prod.fst).Nodup) :
    p ∉ (cleanupOldPeers now st).1.peers
    ∧ (∀ t2, (p, t2) ∉ (cleanupOldPeers now st).1.storedPeers)
    ∧ (cleanupOldPeers now st).2.filter (fun n => decide (n.1 = p)) = [(p, false)]
    ∧ (cleanupOldPeers now2 (cleanupOldPeers now st).1).2.filter
        (fun n => decide (n.1 = p)) = []
    ∧ (handlePeerDiscovery (cleanupOldPeers now st).1 p now3).2 = [(p, true)]
    ∧ p ∈ (handlePeerDiscovery (cleanupOldPeers now st).1 p now3).1.peers := by
  have hqt : (decide (now - t > 30000)) = true := by simp [hstale]
  have hpstale : (p, t) ∈ st.storedPeers.filter (fun e => decide (now - e.2 > 30000)) := by
    rw [List.mem_filter]
    exact ⟨hmem, hqt⟩
  have ha : p ∉ (cleanupOldPeers now st).1.peers := by
    intro hp
    simp only [cleanupOldPeers] at hp
    rw [List.mem_filter] at hp
    obtain ⟨hp1, hp2⟩ := hp
    have hany : (st.storedPeers.filter (fun e => decide (now - e.2 > 30000))).any
        (fun e => decide (e.1 = p)) = true := by
      rw [List.any_eq_true]
      exact ⟨(p, t), hpstale, by simp⟩
    rw [hany] at hp2
    cases hp2
  have hb : ∀ t2, (p, t2) ∉ (cleanupOldPeers now st).1.storedPeers := by
    intro t2 hmem2
    simp only [cleanupOldPeers] at hmem2
    rw [List.mem_filter] at hmem2
    obtain ⟨hin, hfresh⟩ := hmem2
    have ht2 : t = t2 := key_unique st.storedPeers p t t2 hnd hmem hin
    rw [← ht2] at hfresh
    simp [hstale] at hfresh
  have hc : (cleanupOldPeers now st).2.filter (fun n => decide (n.1 = p))
      = [(p, false)] := by
    simp only [cleanupOldPeers]
    rw [filter_key_map_false, stale_filter_key st.storedPeers p t now hnd hmem hstale]
    rfl
  have hd : (cleanupOldPeers now2 (cleanupOldPeers now st).1).2.filter
      (fun n => decide (n.1 = p)) = [] := by
    conv =>
      lhs
      rw [cleanupOldPeers]
    rw [filter_key_map_false]
    have hnil : ((cleanupOldPeers now st).1.storedPeers.filter
        (fun e => decide (now2 - e.2 > 30000))).filter (fun n => decide (n.1 = p)) = [] := by
      rw [List.filter_eq_nil_iff]
      intro e he
      simp only [decide_eq_true_eq]
      intro hkey
      apply hb e.2
      have he2 : e ∈ (cleanupOldPeers now st).1.storedPeers := List.mem_of_mem_filter he
      have hpe : (p, e.2) = e := by
        rw [← hkey]
      rw [hpe]
      exact he2
    rw [hnil]
    rfl
  have he : (handlePeerDiscovery (cleanupOldPeers now st).1 p now3).2 = [(p, true)] := by
    simp only [handlePeerDiscovery, if_neg ha]
  have hf : p ∈ (handlePeerDiscovery (cleanupOldPeers now st).1 p now3).1.peers := by
    simp only [handlePeerDiscovery, if_neg ha]
    simp
  exact ⟨ha, hb, hc, hd, he, hf⟩

/-- Witness for claim C7 at a concrete peer state with one stale stored
peer (the universally quantified conjunct of the theorem is instantiated
at the stored timestamp 0). -/
theorem peerExpiryOneDisconnectThenReconnect_witness :
    [5] ∉ (cleanupOldPeers 40000 cNetState7).1.peers
    ∧ ([5], (0 : Int)) ∉ (cleanupOldPeers 40000 cNetState7).1.storedPeers
    ∧ (cleanupOldPeers 40000 cNetState7).2.filter (fun n => decide (n.1 = [5]))
        = [([5], false)]
    ∧ (cleanupOldPeers 50000 (cleanupOldPeers 40000 cNetState7).1).2.filter
        (fun n => decide (n.1 = [5])) = []
    ∧ (handlePeerDiscovery (cleanupOldPeers 40000 cNetState7).1 [5] 60000).2
        = [([5], true)]
    ∧ [5] ∈ (handlePeerDiscovery (cleanupOldPeers 40000 cNetState7).1 [5] 60000).1.peers :=
  ⟨(peerExpiryOneDisconnectThenReconnect cNetState7 [5] 0 40000 50000 60000
      (by decide) (by decide) (by decide)).1,
    (peerExpiryOneDisconnectThenReconnect cNetState7 [5] 0 40000 50000 60000
      (by decide) (by decide) (by decide)).2.1 0,
    (peerExpiryOneDisconnectThenReconnect cNetState7 [5] 0 40000 50000 60000
      (by decide) (by decide) (by decide)).2.2⟩

/-- Claim C10: the checksum produced by `generateSecureBackup` is the hash
of the backup string together with the clock reading at backup time, and
`restoreFromSecureBackup` recomputes the expected checksum from its own
clock reading; consequently the restore throws `Backup integrity check
failed` whenever the two readings differ, and the round-trip succeeds
(returning the original data) when the restore observes the same
millisecond reading as the checksum computation. -/
theorem backupChecksumClockCoupling :
    (∀ data password salt nonce : Str, ∀ tsNow ckNow now2 : Nat, ∀ bp : BackupPair,
        generateSecureBackup data password salt nonce tsNow ckNow = some bp →
        ckNow ≠ now2 →
        restoreFromSecureBackup bp.backup password bp.checksum now2
          = .error .backupIntegrityCheckFailed)
    ∧ (∀ data password salt nonce : Str, ∀ tsNow ckNow : Nat, ∀ bp : BackupPair,
        generateSecureBackup data password salt nonce tsNow ckNow = some bp →
        byteOk data = true → byteOk password = true → byteOk salt = true →
        byteOk nonce = true → nonce.length = 24 →
        restoreFromSecureBackup bp.backup password bp.checksum ckNow = .ok data) := by
  constructor
  · intro data password salt nonce tsNow ckNow now2 bp hgen hne
    unfold generateSecureBackup at hgen
    cases hE : encryptBackupData data password salt nonce with
    | none => rw [hE] at hgen; cases hgen
    | some ed =>
        rw [hE] at hgen
        cases hgen
        simp only [restoreFromSecureBackup]
        rw [if_neg ?hneq]
        case hneq =>
          intro heq
          exact hne (generateMessageHash_time_injective _ backupSenderId _ _ heq).symm
  · intro data password salt nonce tsNow ckNow bp hgen hdata hpw hsalt hnonce hlen
    have hkOk : byteOk ((naclHash (password ++ salt)).take 32) = true :=
      byteOk_take _ _ (byteOk_naclHash _ ((byteOk_append _ _).mpr ⟨hpw, hsalt⟩))
    have hkb : decodeBase64 (deriveKeyFromPassword password salt)
        = some ((naclHash (password ++ salt)).take 32) := by
      unfold deriveKeyFromPassword
      exact decodeBase64_encodeBase64 _ ((byteOk_iff _).mp hkOk)
    unfold generateSecureBackup at hgen
    unfold encryptBackupData at hgen
    rw [hkb] at hgen
    cases hgen
    have hbody : byteOk
        (nonce ++ naclSecretbox data nonce ((naclHash (password ++ salt)).take 32)) = true := by
      rw [byteOk_append]
      exact ⟨hnonce, byteOk_sealWith _ _⟩
    have hcomb := decodeBase64_encodeBase64 _ ((byteOk_iff _).mp hbody)
    have htake : (nonce ++ naclSecretbox data nonce
        ((naclHash (password ++ salt)).take 32)).take 24 = nonce := by
      rw [← hlen]
      exact take_append_len _ _
    have hdrop : (nonce ++ naclSecretbox data nonce
        ((naclHash (password ++ salt)).take 32)).drop 24
        = naclSecretbox data nonce ((naclHash (password ++ salt)).take 32) := by
      rw [← hlen]
      exact drop_append_len _ _
    have hopen := naclSecretboxOpen_naclSecretbox data nonce
      ((naclHash (password ++ salt)).take 32) ((byteOk_iff _).mp hdata)
    simp only [restoreFromSecureBackup, if_pos rfl, parseBackup_stringifyBackup,
      decryptBackupData, hkb, hcomb, htake, hdrop, hopen]
    simp

/-- Witness for claim C10 at concrete data, password, salt, nonce and
clock readings: a mismatched restore-time clock fails the integrity
check, and a matching one returns the original data. -/
theorem backupChecksumClockCoupling_witness :
    restoreFromSecureBackup cBackupPair.backup [112] cBackupPair.checksum 13
        = .error .backupIntegrityCheckFailed
    ∧ restoreFromSecureBackup cBackupPair.backup [112] cBackupPair.checksum 12
        = .ok [1, 2, 3] :=
  ⟨backupChecksumClockCoupling.1 [1, 2, 3] [112] [115]
      (List.replicate 24 4) 11 12 13 cBackupPair (by decide) (by decide),
    backupChecksumClockCoupling.2 [1, 2, 3] [112] [115]
      (List.replicate 24 4) 11 12 cBackupPair (by decide) (by decide) (by decide)
      (by decide) (by decide) (by decide)⟩

/-- Evaluation of the accepted direct-message path of the router. -/
theorem runDirect (st : RouterState) (e : NetworkMessage) (now : Int)
    (contact : Contact) (kp : KeyPair) (plain : Str)
    (hmt : e.mtype = .directMessage)
    (hrec : e.recipientId = st.currentUser.map (fun u => u.id))
    (hfind : st.contacts.find? (fun c => decide (c.id = e.senderId)) = some contact)
    (hkp : st.keyPair = some kp)
    (hdec : decryptDirectMessage e.content contact.publicKey kp.privateKey = .ok plain) :
    handleNetworkMessage st e now
      = ({ st with messages :=
            (setItem st.messages
              (mkRouterMessage e (st.currentUser.map (fun u => u.id)) none plain).id
              (mkRouterMessage e (st.currentUser.map (fun u => u.id)) none plain)) },
          [mkRouterMessage e (st.currentUser.map (fun u => u.id)) none plain]) := by
  simp only [handleNetworkMessage, hmt, hfind, hkp, hdec]
  rw [if_pos hrec]

/-- Evaluation of the direct-message path when the recipient id does not
match. -/
theorem dropRecipientMismatch (st : RouterState) (e : NetworkMessage) (now : Int)
    (hmt : e.mtype = .directMessage)
    (hrec : ¬ e.recipientId = st.currentUser.map (fun u => u.id)) :
    handleNetworkMessage st e now = (st, []) := by
  simp only [handleNetworkMessage, hmt]
  rw [if_neg hrec]

/-- Evaluation of the direct-message path when the sender is not a stored
contact. -/
theorem dropUnknownContact (st : RouterState) (e : NetworkMessage) (now : Int)
    (hmt : e.mtype = .directMessage)
    (hfind : st.contacts.find? (fun c => decide (c.id = e.senderId)) = none) :
    handleNetworkMessage st e now = (st, []) := by
  simp only [handleNetworkMessage, hmt, hfind, ite_self]

/-- Evaluation of the direct-message path without a stored key pair. -/
theorem dropNoKeyPair (st : RouterState) (e : NetworkMessage) (now : Int)
    (hmt : e.mtype = .directMessage)
    (hkp : st.keyPair = none) :
    handleNetworkMessage st e now = (st, []) := by
  simp only [handleNetworkMessage, hmt, hkp]
  cases hfind : st.contacts.find? (fun c => decide (c.id = e.senderId)) <;>
    simp [ite_self]

/-- Evaluation of the direct-message path when decryption throws. -/
theorem dropDecryptError (st : RouterState) (e : NetworkMessage) (now : Int)
    (contact : Contact) (kp : KeyPair) (err : JsError)
    (hmt : e.mtype = .directMessage)
    (hfind : st.contacts.find? (fun c => decide (c.id = e.senderId)) = some contact)
    (hkp : st.keyPair = some kp)
    (hdec : decryptDirectMessage e.content contact.publicKey kp.privateKey
      = .error err) :
    handleNetworkMessage st e now = (st, []) := by
  simp only [handleNetworkMessage, hmt, hfind, hkp, hdec, ite_self]

/-- Inversion of an accepted direct-message delivery. -/
theorem acceptedDirect (st : RouterState) (e : NetworkMessage) (now : Int)
    (st1 : RouterState) (m : Message)
    (hmt : e.mtype = .directMessage)
    (h : handleNetworkMessage st e now = (st1, [m])) :
    e.recipientId = st.currentUser.map (fun u => u.id)
    ∧ ∃ contact kp plain,
        st.contacts.find? (fun c => decide (c.id = e.senderId)) = some contact
        ∧ st.keyPair = some kp
        ∧ decryptDirectMessage e.content contact.publicKey kp.privateKey
            = Except.ok plain
        ∧ st1 = { st with messages :=
            (setItem st.messages
              (mkRouterMessage e (st.currentUser.map (fun u => u.id)) none plain).id
              (mkRouterMessage e (st.currentUser.map (fun u => u.id)) none plain)) }
        ∧ m = mkRouterMessage e (st.currentUser.map (fun u => u.id)) none plain := by
  by_cases hrec : e.recipientId = st.currentUser.map (fun u => u.id)
  · cases hfind : st.contacts.find? (fun c => decide (c.id = e.senderId)) with
    | none =>
        rw [dropUnknownContact st e now hmt hfind] at h
        injection h with h1 h2
        exact absurd h2 (by simp)
    | some contact =>
        cases hkp : st.keyPair with
        | none =>
            rw [dropNoKeyPair st e now hmt hkp] at h
            injection h with h1 h2
            exact absurd h2 (by simp)
        | some kp =>
            cases hdec : decryptDirectMessage e.content contact.publicKey kp.privateKey with
            | error err =>
                rw [dropDecryptError st e now contact kp err hmt hfind hkp hdec] at h
                injection h with h1 h2
                exact absurd h2 (by simp)
            | ok plain =>
                rw [runDirect st e now contact kp plain hmt hrec hfind hkp hdec] at h
                injection h with h1 h2
                injection h2 with h3 h4
                rw [hkp] at h1
                exact ⟨hrec, contact, kp, plain, rfl, rfl, hdec, h1.symm, h3.symm⟩
  · rw [dropRecipientMismatch st e now hmt hrec] at h
    injection h with h1 h2
    exact absurd h2 (by simp)

/-- Evaluation of the accepted group-message path of the router. -/
theorem runGroup (st : RouterState) (e : NetworkMessage) (now : Int)
    (gid : Str) (group : ChatGroup) (plain : Str)
    (hmt : e.mtype = .groupMessage)
    (hgid : e.groupId = some gid)
    (hfind : st.groups.find? (fun g => decide (g.id = gid)) = some group)
    (hdec : decryptGroupMessage e.content group.symmetricKey = .ok plain) :
    handleNetworkMessage st e now
      = ({ st with messages :=
            (setItem st.messages
              (mkRouterMessage e none (some gid) plain).id
              (mkRouterMessage e none (some gid) plain)) },
          [mkRouterMessage e none (some gid) plain]) := by
  simp only [handleNetworkMessage, hmt, hgid, hfind, hdec]

/-- Inversion of an accepted group-message delivery. -/
theorem acceptedGroup (st : RouterState) (e : NetworkMessage) (now : Int)
    (st1 : RouterState) (m : Message)
    (hmt : e.mtype = .groupMessage)
    (h : handleNetworkMessage st e now = (st1, [m])) :
    ∃ gid group plain,
        e.groupId = some gid
        ∧ st.groups.find? (fun g => decide (g.id = gid)) = some group
        ∧ decryptGroupMessage e.content group.symmetricKey = Except.ok plain
        ∧ st1 = { st with messages :=
            (setItem st.messages
              (mkRouterMessage e none (some gid) plain).id
              (mkRouterMessage e none (some gid) plain)) }
        ∧ m = mkRouterMessage e none (some gid) plain := by
  cases hgid : e.groupId with
  | none =>
      have hrun : handleNetworkMessage st e now = (st, []) := by
        simp only [handleNetworkMessage, hmt, hgid]
      rw [hrun] at h
      injection h with h1 h2
      exact absurd h2 (by simp)
  | some gid =>
      cases hfind : st.groups.find? (fun g => decide (g.id = gid)) with
      | none =>
          have hrun : handleNetworkMessage st e now = (st, []) := by
            simp only [handleNetworkMessage, hmt, hgid, hfind]
          rw [hrun] at h
          injection h with h1 h2
          exact absurd h2 (by simp)
      | some group =>
          cases hdec : decryptGroupMessage e.content group.symmetricKey with
          | error err =>
              have hrun : handleNetworkMessage st e now = (st, []) := by
                simp only [handleNetworkMessage, hmt, hgid, hfind, hdec]
              rw [hrun] at h
              injection h with h1 h2
              exact absurd h2 (by simp)
          | ok plain =>
              rw [runGroup st e now gid group plain hmt hgid hfind hdec] at h
              injection h with h1 h2
              injection h2 with h3 h4
              exact ⟨gid, group, plain, rfl, hfind, hdec, h1.symm, h3.symm⟩

/-- A user-status or unknown envelope never reaches the subscribers. -/
theorem statusDeliversNothing (st : RouterState) (e : NetworkMessage) (now : Int)
    (hmt : e.mtype = .userStatus ∨ e.mtype = .peerDiscovery) :
    (handleNetworkMessage st e now).2 = [] := by
  cases hmt with
  | inl hmt =>
      simp only [handleNetworkMessage, hmt]
      cases statusParse e.content <;> rfl
  | inr hmt =>
      simp only [handleNetworkMessage, hmt]

/-- Redelivering an envelope that was accepted once is accepted again with
the identical `Message` and leaves the state fixed: there is no dedup
cache, and the persistence layer is unchanged only because the message id
is derived from sender and timestamp. -/
theorem handleNetworkMessageRedeliver (st : RouterState) (e : NetworkMessage)
    (now : Int) (st1 : RouterState) (m : Message)
    (h : handleNetworkMessage st e now = (st1, [m])) :
    handleNetworkMessage st1 e now = (st1, [m]) ∧ st1.currentUser = st.currentUser := by
  cases hmt : e.mtype with
  | directMessage =>
      obtain ⟨hrec, contact, kp, plain, hfind, hkp, hdec, hst1, hm⟩ :=
        acceptedDirect st e now st1 m hmt h
      subst hst1
      subst hm
      refine ⟨?_, rfl⟩
      have hrun2 := runDirect
        ({ st with messages :=
          (setItem st.messages
            (mkRouterMessage e (st.currentUser.map (fun u => u.id)) none plain).id
            (mkRouterMessage e (st.currentUser.map (fun u => u.id)) none plain)) })
        e now contact kp plain hmt hrec hfind hkp hdec
      rw [hrun2]
      rw [show ({ st with messages :=
          (setItem st.messages
            (mkRouterMessage e (st.currentUser.map (fun u => u.id)) none plain).id
            (mkRouterMessage e (st.currentUser.map (fun u => u.id)) none plain)) }
            : RouterState).messages
          = (setItem st.messages
              (mkRouterMessage e (st.currentUser.map (fun u => u.id)) none plain).id
              (mkRouterMessage e (st.currentUser.map (fun u => u.id)) none plain))
        from rfl]
      rw [setItem_idem]
  | groupMessage =>
      obtain ⟨gid, group, plain, hgid, hfind, hdec, hst1, hm⟩ :=
        acceptedGroup st e now st1 m hmt h
      subst hst1
      subst hm
      refine ⟨?_, rfl⟩
      have hrun2 := runGroup
        ({ st with messages :=
          (setItem st.messages
            (mkRouterMessage e none (some gid) plain).id
            (mkRouterMessage e none (some gid) plain)) })
        e now gid group plain hmt hgid hfind hdec
      rw [hrun2]
      rw [show ({ st with messages :=
          (setItem st.messages
            (mkRouterMessage e none (some gid) plain).id
            (mkRouterMessage e none (some gid) plain)) } : RouterState).messages
          = (setItem st.messages
              (mkRouterMessage e none (some gid) plain).id
              (mkRouterMessage e none (some gid) plain))
        from rfl]
      rw [setItem_idem]
  | userStatus =>
      have h2 := congrArg Prod.snd h
      rw [statusDeliversNothing st e now (Or.inl hmt)] at h2
      exact absurd h2.symm (by simp)
  | peerDiscovery =>
      have h2 := congrArg Prod.snd h
      rw [statusDeliversNothing st e now (Or.inr hmt)] at h2
      exact absurd h2.symm (by simp)

/-- Counterexample for claim C2: delivering the same envelope to the
inbound path twice passes the decrypted `Message` to the subscribers
twice, not once — there is no recent-envelope-id deduplication cache
anywhere on the receive path. -/
theorem dedupIdempotenceFalsified :
    (deliverTwice cState cEnv 0).length = 2
      ∧ (deliverTwice cState cEnv 0).length ≠ 1 := by
  decide

/-- Evaluation of the network self-echo guard with a current user and a
foreign sender. -/
theorem deliverToRouter_eval_some (st : RouterState) (e : NetworkMessage)
    (now : Int) (u : User) (hcu : st.currentUser = some u)
    (hs : ¬ e.senderId = u.id) :
    deliverToRouter st e now = handleNetworkMessage st e now := by
  simp only [deliverToRouter, hcu]
  rw [if_neg hs]

/-- Evaluation of the network self-echo guard on an own echo. -/
theorem deliverToRouter_eval_self (st : RouterState) (e : NetworkMessage)
    (now : Int) (u : User) (hcu : st.currentUser = some u)
    (hs : e.senderId = u.id) :
    deliverToRouter st e now = (st, []) := by
  simp only [deliverToRouter, hcu]
  rw [if_pos hs]

/-- Evaluation of the network self-echo guard without a current user. -/
theorem deliverToRouter_eval_none (st : RouterState) (e : NetworkMessage)
    (now : Int) (hcu : st.currentUser = none) :
    deliverToRouter st e now = handleNetworkMessage st e now := by
  simp only [deliverToRouter, hcu]

/-- Claim C2 as amended: delivering the same envelope a second time
notifies the subscribers a second time with the identical `Message`
(there is no deduplication cache); the router state, and with it the
message store, is unchanged by the redelivery only because the message id
`senderId-timestamp` makes the save idempotent. -/
theorem envelopeRedeliveryNotifiesAgain (st : RouterState) (e : NetworkMessage)
    (now : Int) (st1 : RouterState) (m : Message)
    (h : deliverToRouter st e now = (st1, [m])) :
    deliverToRouter st1 e now = (st1, [m]) := by
  cases hcu : st.currentUser with
  | none =>
      rw [deliverToRouter_eval_none st e now hcu] at h
      obtain ⟨hagain, hcu1⟩ := handleNetworkMessageRedeliver st e now st1 m h
      rw [deliverToRouter_eval_none st1 e now (hcu1.trans hcu)]
      exact hagain
  | some u =>
      by_cases hs : e.senderId = u.id
      · rw [deliverToRouter_eval_self st e now u hcu hs] at h
        injection h with h1 h2
        exact absurd h2 (by simp)
      · rw [deliverToRouter_eval_some st e now u hcu hs] at h
        obtain ⟨hagain, hcu1⟩ := handleNetworkMessageRedeliver st e now st1 m h
        rw [deliverToRouter_eval_some st1 e now u (hcu1.trans hcu) hs]
        exact hagain

/-- Witness for the amended claim C2 at the concrete state and envelope of
the counterexample: the second delivery returns the same state and
notifies the same message again. -/
theorem envelopeRedeliveryNotifiesAgain_witness :
    deliverToRouter cState1 cEnv 0 = (cState1, [cMsg]) :=
  envelopeRedeliveryNotifiesAgain cState cEnv 0 cState1 cMsg (by decide)

/-- Witness for claim C8: the invariant evaluated on a concretely created
user and a concretely imported user. -/
theorem acceptedIdentityIdIsHashOfPublicKey_witness :
    generateUserId (encodeBase64 (pubOfPriv cSkR))
        = some (encodeBase64 (naclHash (pubOfPriv cSkR)))
      ∧ generateUserId ([] : Str) = some (encodeBase64 (naclHash [])) :=
  ⟨acceptedIdentityIdIsHashOfPublicKey.1 cSkR [97]
      { id := encodeBase64 (naclHash (pubOfPriv cSkR)),
        publicKey := encodeBase64 (pubOfPriv cSkR), username := [97], isOnline := true }
      (by decide),
    acceptedIdentityIdIsHashOfPublicKey.2 [97] (List.replicate 64 48)
      { id := encodeBase64 (naclHash []), publicKey := [], username := [97],
        isOnline := true }
      (by decide)⟩

end P2PChat
